import Mathlib

/-!
Verification of the tag-editor widget `EditTag` from
`web/src/components/edit-tag/index.tsx`.

The widget keeps two pieces of transient state (`inputVisible`,
`inputValue`), receives an optional `value : string[]` and an optional
`onChange` callback, and exposes three behaviours that the claims are
about:

* `handleClose(removedTag)`  — `value?.filter((tag) => tag !== removedTag)`
  followed by `onChange?.(newTags ?? [])`;
* `handleInputConfirm()`     — if `inputValue` is truthy (non-empty),
  split it on the character `;`, trim every candidate, keep the
  candidates that are non-empty and not contained in `value`, and call
  `onChange?.([...value, ...newTags])`; in every case set
  `inputVisible` to `false` and `inputValue` to `""`;
* the props defaulting `({ value = [], onChange })`, so an absent
  `value` behaves as the empty list and an absent `onChange` makes the
  proposal undeliverable.

JavaScript string primitives (`String.prototype.split` with a
one-character separator, `String.prototype.trim`) are embedded as
structurally recursive functions on the character list of a Lean
`String`, so that every definition evaluates inside the kernel.
The single `onChange` invocation of a handler is modelled as an
`Option (List String)`: `some xs` means the callback is invoked once
with `xs`, `none` means it is not invoked.
-/

/-- Whitespace predicate of JavaScript `String.prototype.trim`:
the WhiteSpace and LineTerminator code points of ECMA-262. -/
def jsIsWhitespace (c : Char) : Bool :=
  let n := c.toNat
  n = 0x9 || n = 0xA || n = 0xB || n = 0xC || n = 0xD || n = 0x20 ||
  n = 0xA0 || n = 0x1680 || (0x2000 ≤ n && n ≤ 0x200A) ||
  n = 0x2028 || n = 0x2029 || n = 0x202F || n = 0x205F || n = 0x3000 || n = 0xFEFF

/-- Drop the leading whitespace characters of a character list. -/
def trimLeftList : List Char → List Char
  | [] => []
  | c :: rest => if jsIsWhitespace c then trimLeftList rest else c :: rest

/-- JavaScript `s.trim()`: remove whitespace from both ends. -/
def jsTrim (s : String) : String :=
  ⟨(trimLeftList (trimLeftList s.data).reverse).reverse⟩

/-- Accumulator loop for splitting on a single separator character. -/
def splitCharAux (sep : Char) : List Char → List Char → List String
  | [], acc => [⟨acc.reverse⟩]
  | c :: rest, acc =>
    if c = sep then (⟨acc.reverse⟩ : String) :: splitCharAux sep rest []
    else splitCharAux sep rest (c :: acc)

/-- JavaScript `s.split(sep)` for a one-character separator: the empty
string splits to `[""]`, and a trailing separator yields a trailing
empty field, exactly as in ECMA-262. -/
def jsSplit (sep : Char) (s : String) : List String :=
  splitCharAux sep s.data []

/-- Transient state owned by the widget: the `inputVisible` and
`inputValue` `useState` hooks. -/
structure EditTagState where
  inputVisible : Bool
  inputValue : String
deriving DecidableEq

/-- The props of `EditTag`: `value?: string[]` and `onChange?`.
`value = none` models an absent `value` prop (the destructuring default
`value = []` then applies); `hasOnChange = false` models an absent
`onChange` callback (so `onChange?.(…)` is a no-op). -/
structure EditTagsProps where
  value : Option (List String)
  hasOnChange : Bool
deriving DecidableEq

/-- The effective tag collection after the destructuring default
`({ value = [], onChange })`. -/
def effectiveValue (p : EditTagsProps) : List String :=
  p.value.getD []

/-- `handleClose`: `const newTags = value?.filter((tag) => tag !== removedTag)`.
The returned list is the argument passed to `onChange?.(newTags ?? [])`. -/
def handleClose (value : List String) (removedTag : String) : List String :=
  value.filter (fun tag => !(tag == removedTag))

/-- The candidate pipeline of `handleInputConfirm`:
`inputValue.split(';').map((tag) => tag.trim()).filter((tag) => tag && !(value || []).includes(tag))`.
A JavaScript string is truthy exactly when it is non-empty, and
`includes` is exact, case-sensitive membership. -/
def computeNewTags (value : List String) (inputValue : String) : List String :=
  ((jsSplit ';' inputValue).map jsTrim).filter
    (fun tag => !(tag == "") && !(value.contains tag))

/-- `handleInputConfirm`: when `inputValue` is truthy (non-empty) the
callback is invoked with `[...value, ...newTags]`; in every case the
state is reset to `inputVisible = false`, `inputValue = ''`.
The second component is the single `onChange` proposal (`none` when the
callback is not invoked). -/
def handleInputConfirm (value : List String) (st : EditTagState) :
    EditTagState × Option (List String) :=
  (⟨false, ""⟩,
    if st.inputValue == "" then none
    else some (value ++ computeNewTags value st.inputValue))

/-- A commit (blur or Enter on the input) at the level of the props:
the proposal reaches the parent only when `onChange` is present. -/
def confirmAction (p : EditTagsProps) (st : EditTagState) :
    EditTagState × Option (List String) :=
  let r := handleInputConfirm (effectiveValue p) st
  (r.1, if p.hasOnChange then r.2 else none)

/-- A removal (click on the X of a chip) at the level of the props. -/
def closeAction (p : EditTagsProps) (removedTag : String) :
    Option (List String) :=
  if p.hasOnChange then some (handleClose (effectiveValue p) removedTag) else none

/-- `showInput`: reveal the add-input (`setInputVisible(true)`). -/
def showInput (st : EditTagState) : EditTagState :=
  ⟨true, st.inputValue⟩

/-- `handleInputChange`: every keystroke stores the raw text unmodified. -/
def handleInputChange (st : EditTagState) (raw : String) : EditTagState :=
  ⟨st.inputVisible, raw⟩

/-- Every element produced by the candidate pipeline is absent from the
existing collection and non-empty: it survived the filter
`tag && !(value || []).includes(tag)`. -/
lemma mem_computeNewTags {value : List String} {T t : String}
    (h : t ∈ computeNewTags value T) : t ∉ value ∧ t ≠ "" := by
  unfold computeNewTags at h
  have hp := (List.mem_filter.mp h).2
  simp only [Bool.and_eq_true, Bool.not_eq_true', beq_eq_false_iff_ne] at hp
  refine ⟨?_, hp.1⟩
  simpa using hp.2

/-- Claim C4 (confirmed): with collection `["alpha", "beta"]`,
committing `"gamma; beta ; delta"` keeps the existing entries in order,
appends the surviving candidates `gamma` and `delta` trimmed and in
input order, and rejects the duplicate `beta`. -/
theorem C4_scenarioA :
    confirmAction ⟨some ["alpha", "beta"], true⟩ ⟨true, "gamma; beta ; delta"⟩ =
      (⟨false, ""⟩, some ["alpha", "beta", "gamma", "delta"]) := by
  decide

/-- Claim C5 (confirmed): with collection `["x"]`, committing `"x;x;y"`
rejects both occurrences of `x` against the existing collection and
accepts `y` once, producing `["x", "y"]`. -/
theorem C5_scenarioD :
    confirmAction ⟨some ["x"], true⟩ ⟨true, "x;x;y"⟩ =
      (⟨false, ""⟩, some ["x", "y"]) := by
  decide

/-- Claim C6 (confirmed): every candidate that the commit appends
survived the filter, so it is not equal to any existing element of the
collection (exact, case-sensitive match) and it is not empty after
trimming; moreover the committed sequence is exactly the existing
collection followed by the surviving candidates. -/
theorem C6_only_new_nonempty_added (S : List String) (T t : String)
    (h : t ∈ computeNewTags S T) :
    t ∉ S ∧ t ≠ "" ∧
    (handleInputConfirm S ⟨true, T⟩).2 = some (S ++ computeNewTags S T) := by
  have hT : T ≠ "" := by
    rintro rfl
    rw [show computeNewTags S "" = [] from rfl] at h
    exact absurd h (List.not_mem_nil t)
  have hb : (T == "") = false := beq_eq_false_iff_ne.mpr hT
  exact ⟨(mem_computeNewTags h).1, (mem_computeNewTags h).2,
    by simp [handleInputConfirm, hb]⟩

/-- Witness for C6 at a concrete input. -/
theorem C6_only_new_nonempty_added_witness :
    "b" ∉ (["a"] : List String) ∧ "b" ≠ "" ∧
    (handleInputConfirm ["a"] ⟨true, "a;b"⟩).2 =
      some (["a"] ++ computeNewTags ["a"] "a;b") :=
  C6_only_new_nonempty_added ["a"] "a;b" "b" (by decide)

/-- Claim C7 (confirmed): committing with empty pending text never
invokes the callback and resets the state to Idle with the pending text
cleared; committing again from the resulting state has the same
(no-op) outcome. -/
theorem C7_empty_commit_idempotent (S : List String) (st : EditTagState)
    (h : st.inputValue = "") :
    handleInputConfirm S st = (⟨false, ""⟩, none) ∧
    handleInputConfirm S (handleInputConfirm S st).1 = (⟨false, ""⟩, none) := by
  constructor
  · simp [handleInputConfirm, h]
  · simp [handleInputConfirm]

/-- Witness for C7 at a concrete input. -/
theorem C7_empty_commit_idempotent_witness :
    handleInputConfirm ["a"] ⟨true, ""⟩ = (⟨false, ""⟩, none) ∧
    handleInputConfirm ["a"] (handleInputConfirm ["a"] ⟨true, ""⟩).1 =
      (⟨false, ""⟩, none) :=
  C7_empty_commit_idempotent ["a"] ⟨true, ""⟩ rfl

/-- Claim C8 (confirmed): every commit — blur and Enter both call
`handleInputConfirm` — resets the state to Idle: the visibility flag
becomes `false` and the pending text becomes `""`, for every collection
and every pending text. -/
theorem C8_commit_enters_idle (p : EditTagsProps) (st : EditTagState) :
    (confirmAction p st).1 = ⟨false, ""⟩ ∧
    (handleInputConfirm (effectiveValue p) st).1 = ⟨false, ""⟩ :=
  ⟨rfl, rfl⟩

/-- Claim C9 (confirmed): an absent `value` prop behaves exactly like
the empty sequence for both operations, and an absent `onChange`
delivers no proposal (the action is silently dropped) while the
transient state still updates exactly as with a callback present. -/
theorem C9_optional_props (v : Option (List String)) (b : Bool)
    (st : EditTagState) (t : String) :
    confirmAction ⟨none, b⟩ st = confirmAction ⟨some [], b⟩ st ∧
    closeAction ⟨none, b⟩ t = closeAction ⟨some [], b⟩ t ∧
    (confirmAction ⟨v, false⟩ st).2 = none ∧
    (confirmAction ⟨v, false⟩ st).1 = (confirmAction ⟨v, true⟩ st).1 ∧
    closeAction ⟨v, false⟩ t = none :=
  ⟨rfl, rfl, rfl, rfl, rfl⟩

/-- Claim C10 (confirmed): when the pending text is non-empty but every
candidate is filtered out, the commit still invokes `onChange` exactly
once, with a sequence element-wise equal to the current collection. -/
theorem C10_unchanged_commit_still_notifies (S : List String)
    (st : EditTagState) (h1 : st.inputValue ≠ "")
    (h2 : computeNewTags S st.inputValue = []) :
    handleInputConfirm S st = (⟨false, ""⟩, some S) := by
  have hb : (st.inputValue == "") = false := beq_eq_false_iff_ne.mpr h1
  simp [handleInputConfirm, hb, h2]

/-- Witness for C10 at a concrete input. -/
theorem C10_unchanged_commit_still_notifies_witness :
    handleInputConfirm ["a"] ⟨true, " ; a "⟩ = (⟨false, ""⟩, some ["a"]) :=
  C10_unchanged_commit_still_notifies ["a"] ⟨true, " ; a "⟩ (by decide) (by decide)

/-- Claim C3 (counterexample): committing the pending text `"   ;  "`
on the empty collection does invoke the change callback — the text is a
non-empty string, hence truthy, so `onChange?.()` is reached even
though zero candidates survive. -/
theorem C3_counterexample :
    ¬ (confirmAction ⟨some [], true⟩ ⟨true, "   ;  "⟩).2 = none := by
  decide

/-- Claim C3 (amended): committing `"   ;  "` on the empty collection
invokes the change callback exactly once with the unchanged empty
sequence, and resets the widget to Idle. -/
theorem C3_commit_blank_input :
    confirmAction ⟨some [], true⟩ ⟨true, "   ;  "⟩ = (⟨false, ""⟩, some []) := by
  decide

/-- Claim C1 (counterexample): starting from the duplicate-free,
empty-free collection `[]`, committing `"a;a"` passes `["a", "a"]` to
`onChange` — the filter checks candidates only against the original
collection, so a candidate repeated within one input is appended twice
and the no-duplicates invariant is broken. -/
theorem C1_counterexample :
    List.Nodup ([] : List String) ∧ (∀ x ∈ ([] : List String), x ≠ "") ∧
    (handleInputConfirm [] ⟨true, "a;a"⟩).2 = some ["a", "a"] ∧
    ¬ (["a", "a"] : List String).Nodup := by
  decide

/-- Claim C1 (amended): for a duplicate-free, empty-free collection,
whenever the surviving candidates of the pending text are pairwise
distinct, the sequence a commit passes to `onChange` contains no
duplicate labels and no empty label. -/
theorem C1_add_preserves_invariant (S : List String) (T : String)
    (hnd : S.Nodup) (hne : ∀ x ∈ S, x ≠ "")
    (hcand : (computeNewTags S T).Nodup) :
    ∀ out, (handleInputConfirm S ⟨true, T⟩).2 = some out →
      out.Nodup ∧ ∀ x ∈ out, x ≠ "" := by
  intro out hout
  unfold handleInputConfirm at hout
  by_cases hT : T = ""
  · simp [hT] at hout
  · have hb : (T == "") = false := beq_eq_false_iff_ne.mpr hT
    simp only [hb, Bool.false_eq_true, if_false, Option.some.injEq] at hout
    subst hout
    constructor
    · exact List.nodup_append.mpr
        ⟨hnd, hcand, fun a ha hb2 => (mem_computeNewTags hb2).1 ha⟩
    · intro x hx
      rcases List.mem_append.mp hx with hmem | hmem
      · exact hne x hmem
      · exact (mem_computeNewTags hmem).2

/-- Witness for the amended C1 at a concrete input. -/
theorem C1_add_preserves_invariant_witness :
    List.Nodup ["a", "b", "c"] ∧ ∀ x ∈ (["a", "b", "c"] : List String), x ≠ "" :=
  C1_add_preserves_invariant ["a"] "b; c;a;" (by decide) (by decide) (by decide)
    ["a", "b", "c"] (by decide)

/-- When a label occurs exactly once in the collection, the removal
filter `value.filter((tag) => tag !== removedTag)` is the removal of
that single occurrence. -/
lemma filter_bne_eq_erase (S : List String) (L : String) (h : S.count L = 1) :
    S.filter (fun tag => !(tag == L)) = S.erase L := by
  induction S with
  | nil => simp at h
  | cons a S ih =>
    by_cases ha : a = L
    · subst ha
      rw [List.count_cons_self] at h
      have hnm : a ∉ S := List.count_eq_zero.mp (by omega)
      rw [List.erase_cons_head, List.filter_cons_of_neg (by simp)]
      exact List.filter_eq_self.mpr (fun x hx => by
        have hxa : x ≠ a := fun hh => hnm (hh ▸ hx)
        simp [hxa])
    · have hLa : L ≠ a := fun hh => ha hh.symm
      rw [List.count_cons_of_ne hLa] at h
      rw [List.filter_cons_of_pos (by simp [ha]), List.erase_cons_tail, ih h]
      simp [ha]

/-- Claim C2 (counterexample): the removal handler filters out every
occurrence of the label, so on a collection holding the label twice the
result is shorter than `len(S) - 1`. -/
theorem C2_counterexample :
    "a" ∈ (["a", "a"] : List String) ∧
    ¬ (handleClose ["a", "a"] "a").length = (["a", "a"] : List String).length - 1 := by
  decide

/-- Claim C2 (amended): for every collection in which the label occurs
exactly once — which the uniqueness invariant guarantees — the removal
yields exactly the collection with that single occurrence removed: its
length is `len(S) - 1`, it is a subsequence of `S` (original relative
order), the label is gone, and this sequence is what reaches
`onChange`. -/
theorem C2_remove_single_occurrence (S : List String) (L : String)
    (h : S.count L = 1) :
    handleClose S L = S.erase L ∧
    (handleClose S L).length = S.length - 1 ∧
    (handleClose S L).Sublist S ∧
    L ∉ handleClose S L ∧
    closeAction ⟨some S, true⟩ L = some (S.erase L) := by
  have he : handleClose S L = S.erase L := filter_bne_eq_erase S L h
  have hmem : L ∈ S := List.count_pos_iff.mp (by omega)
  refine ⟨he, ?_, ?_, ?_, ?_⟩
  · rw [he]
    exact List.length_erase_of_mem hmem
  · rw [he]
    exact List.erase_sublist L S
  · rw [he]
    intro hc
    have h0 : (S.erase L).count L = 0 := by
      rw [List.count_erase_self, h]
    exact absurd (List.count_pos_iff.mpr hc) (by omega)
  · simp [closeAction, effectiveValue, he]

/-- Witness for the amended C2 at a concrete input. -/
theorem C2_remove_single_occurrence_witness :
    handleClose ["a", "b"] "a" = (["a", "b"] : List String).erase "a" ∧
    (handleClose ["a", "b"] "a").length = (["a", "b"] : List String).length - 1 ∧
    (handleClose ["a", "b"] "a").Sublist ["a", "b"] ∧
    "a" ∉ handleClose ["a", "b"] "a" ∧
    closeAction ⟨some ["a", "b"], true⟩ "a" =
      some ((["a", "b"] : List String).erase "a") :=
  C2_remove_single_occurrence ["a", "b"] "a" (by decide)
